import Mathlib

/-!
Verification development for the rayfield-lease-ai analysis pipeline.

Shallow embedding of the repository's core logic:
* the session-scoped progress store (`src/unnamed/part_001`, the SSE
  progress endpoint, and the `emitProgress` helper duplicated in
  `src/app/api/upload/route.ts`);
* the upload-and-analyze pipeline (`src/app/api/upload/route.ts` `POST`);
* the obligations CSV extraction route
  (`src/app/api/generate-obligations-csv/route.ts` `POST`) and the shared
  model-output cleaning step (also in
  `src/app/api/export-obligations/[id]/route.ts` `GET`);
* the chat service (`src/lib/chat-service-basic.ts`) and chat route
  (`src/app/api/chat/route.ts` `POST`).

External collaborators (Supabase storage and database, the Gemini model,
`JSON.parse`) are modelled as oracle parameters: each call site receives the
call's outcome as an explicit `Except`/`Option` value.  JavaScript strings
are modelled by Lean `String` (character counts agree on the ASCII texts the
code manipulates).
-/

namespace RayfieldLease

/-! ## Progress channel

`src/unnamed/part_001`: a global `Map` from session id to an array of
progress events.  `emitProgress` appends (`push`) an event; the SSE
endpoint's polling interval reads a session's whole queue, forwards every
event in order, and resets the queue to `[]`; the abort handler deletes the
session's entry.  A deleted entry and an empty queue behave identically at
every operation, so the store is modelled as a total function from session
id to event queue. -/

inductive ProgressStatus where
  | active
  | completed
  | error
deriving DecidableEq, Repr

/-- The event object built by `emitProgress` (part_001 lines 73-79 and
upload/route.ts lines 19-25): type "progress", a step name, a status, an
optional details payload, a timestamp. -/
structure ProgressEvent where
  type : String
  step : String
  status : ProgressStatus
  details : Option String
  timestamp : String
deriving DecidableEq, Repr

abbrev ProgressStore := String → List ProgressEvent

/-- `emitProgress` (part_001 lines 68-83): ensure the session has a queue,
then push the event at its end. -/
def emitProgress (store : ProgressStore) (sessionId step : String)
    (status : ProgressStatus) (details : Option String) (timestamp : String) :
    ProgressStore :=
  fun k =>
    if k = sessionId then
      store sessionId ++ [⟨"progress", step, status, details, timestamp⟩]
    else store k

/-- One tick of the SSE polling interval (part_001 lines 28-44): read the
session's queue; if it is non-empty, forward every event in order and reset
the queue to `[]`; otherwise do nothing.  Returns the delivered events and
the updated store. -/
def drain (store : ProgressStore) (sessionId : String) :
    List ProgressEvent × ProgressStore :=
  let progress := store sessionId
  if progress.length > 0 then
    (progress, fun k => if k = sessionId then [] else store k)
  else ([], store)

/-- The abort handler (part_001 lines 47-52): drop the session's queued
state (`progressStore.delete`). -/
def dispose (store : ProgressStore) (sessionId : String) : ProgressStore :=
  fun k => if k = sessionId then [] else store k

/-- The arguments of one `emitProgress` call. -/
structure PublishItem where
  step : String
  status : ProgressStatus
  details : Option String
  timestamp : String
deriving DecidableEq, Repr

def mkEvent (it : PublishItem) : ProgressEvent :=
  ⟨"progress", it.step, it.status, it.details, it.timestamp⟩

/-- A sequence of `emitProgress` calls for one session. -/
def publishAll (store : ProgressStore) (sessionId : String)
    (items : List PublishItem) : ProgressStore :=
  items.foldl
    (fun st it => emitProgress st sessionId it.step it.status it.details it.timestamp)
    store

theorem emitProgress_apply_self (store : ProgressStore) (sessionId step : String)
    (status : ProgressStatus) (details : Option String) (timestamp : String) :
    emitProgress store sessionId step status details timestamp sessionId
      = store sessionId ++ [⟨"progress", step, status, details, timestamp⟩] := by
  simp [emitProgress]

theorem publishAll_apply_self (items : List PublishItem) :
    ∀ (store : ProgressStore) (sessionId : String),
      publishAll store sessionId items sessionId
        = store sessionId ++ items.map mkEvent := by
  induction items with
  | nil => intro store sessionId; simp [publishAll]
  | cons it rest ih =>
    intro store sessionId
    have h := ih (emitProgress store sessionId it.step it.status it.details it.timestamp)
      sessionId
    simp only [publishAll, List.foldl_cons] at h ⊢
    rw [h, emitProgress_apply_self]
    simp [mkEvent]

theorem drain_fst (store : ProgressStore) (sessionId : String) :
    (drain store sessionId).1 = store sessionId := by
  unfold drain
  by_cases h : (store sessionId).length > 0
  · simp [h]
  · have : store sessionId = [] := List.eq_nil_of_length_eq_zero (by omega)
    simp [h, this]

theorem drain_snd_self (store : ProgressStore) (sessionId : String) :
    (drain store sessionId).2 sessionId = [] := by
  unfold drain
  by_cases h : (store sessionId).length > 0
  · simp [h]
  · have : store sessionId = [] := List.eq_nil_of_length_eq_zero (by omega)
    simp [h, this]

/-- C6: a drain of the progress channel returns every event published for
that session since the previous drain, in publish (FIFO) order; it is
destructive, so a second drain with no intervening publish returns an empty
list; and events published before any consumer attaches (here: events
already queued in `store`) are delivered on the first drain, not lost. -/
theorem progress_drain_fifo_destructive (store : ProgressStore)
    (sessionId : String) (items : List PublishItem) :
    (drain (publishAll store sessionId items) sessionId).1
        = store sessionId ++ items.map mkEvent
    ∧ (drain ((drain (publishAll store sessionId items) sessionId).2) sessionId).1
        = [] := by
  constructor
  · rw [drain_fst, publishAll_apply_self]
  · rw [drain_fst, drain_snd_self]

/-- C9: publish, drain and dispose on one session leave every other
session's queue unchanged — the store's state is partitioned by session
id. -/
theorem progress_session_isolation (store : ProgressStore)
    (s t step : String) (status : ProgressStatus) (details : Option String)
    (timestamp : String) (h : t ≠ s) :
    emitProgress store s step status details timestamp t = store t
    ∧ (drain store s).2 t = store t
    ∧ dispose store s t = store t := by
  refine ⟨?_, ?_, ?_⟩
  · simp [emitProgress, h]
  · unfold drain
    by_cases hl : (store s).length > 0 <;> simp [hl, h]
  · simp [dispose, h]

/-- Witness for C9 at a concrete input: an event published to session
"sess" is invisible to session "other", and so are drain and dispose. -/
theorem progress_session_isolation_witness :
    emitProgress (fun _ => []) "sess" "Uploading to storage..."
        ProgressStatus.active none "2026-01-01T00:00:00.000Z" "other" = []
    ∧ (drain (fun _ => []) "sess").2 "other" = []
    ∧ dispose (fun _ => []) "sess" "other" = [] :=
  progress_session_isolation (fun _ => []) "sess" "other"
    "Uploading to storage..." ProgressStatus.active none
    "2026-01-01T00:00:00.000Z" (by decide)

/-! ## Upload pipeline

`src/app/api/upload/route.ts` `POST`.  The pipeline: API-key check, user
authentication, form parsing, file validation, buffer conversion, storage
upload, Gemini text extraction (non-fatal: a thrown extraction call is
replaced by a sentinel string), the content-sufficiency gate, one model
call per requested analysis mode (a thrown call stores an error envelope
under that mode's key and the loop continues), and the database save.

The outcomes of the external calls are oracle fields of `PipelineEnv`.
`UploadRequest.analysisModes` is the result of splitting the
`analysisModes` form field on commas (route.ts line 189). -/

/-- The declared name, MIME type and size of the uploaded `File`. -/
structure FileInfo where
  name : String
  type : String
  size : Nat
deriving DecidableEq, Repr

/-- The three fail-fast validation rejections (route.ts lines 199-214). -/
inductive FileValidationError where
  | noFile
  | invalidType (declared : String)
  | tooLarge (size : Nat)
deriving DecidableEq, Repr

/-- route.ts line 210: `50 * 1024 * 1024`. -/
def maxFileSize : Nat := 50 * 1024 * 1024

/-- route.ts lines 199-214: reject when no file is present, when the
declared MIME type is not `application/pdf`, or when the size exceeds the
50 MB ceiling (`file.size > maxSize`). -/
def validateFile : Option FileInfo → Except FileValidationError FileInfo
  | none => .error .noFile
  | some file =>
    if file.type ≠ "application/pdf" then .error (.invalidType file.type)
    else if file.size > maxFileSize then .error (.tooLarge file.size)
    else .ok file

/-- `handleError` (route.ts line 147): `error?.message || 'Unknown error
occurred'`.  Oracle errors carry the thrown error's message string; an
empty message is falsy in JavaScript. -/
def handleErrorMessage (message : String) : String :=
  if message = "" then "Unknown error occurred" else message

/-- The keys of `LEASE_ANALYSIS_PROMPTS` (route.ts lines 32-113): standard,
parsing, redlining, obligations, renewal, legal.  The prompt bodies are
plain string constants whose content none of the verified properties
depends on; only key membership is tested by the code (line 280). -/
def leaseAnalysisPromptKeys : List String :=
  ["standard", "parsing", "redlining", "obligations", "renewal", "legal"]

/-- What `analysisResults[mode]` holds after the loop: the raw model result
text on success, or the error envelope built at route.ts lines 294-298
(`error: true`, the handled message, the timestamp) on failure. -/
inductive ModeOutcome where
  | success (text : String)
  | errorEnvelope (message : String) (timestamp : String)
deriving DecidableEq, Repr

/-- Assignment `analysisResults[mode] = v` on a JavaScript object: a fresh
string key is appended in insertion order, an existing key keeps its
position and gets the new value. -/
def upsert : List (String × ModeOutcome) → String → ModeOutcome →
    List (String × ModeOutcome)
  | [], k, v => [(k, v)]
  | (k', v') :: rest, k, v =>
    if k' = k then (k, v) :: rest else (k', v') :: upsert rest k v

/-- Property read `analysisResults[mode]` (keys are unique by
construction). -/
def lookupMode : List (String × ModeOutcome) → String → Option ModeOutcome
  | [], _ => none
  | (k', v') :: rest, k => if k' = k then some v' else lookupMode rest k

/-- The per-mode result mapping built so far, plus a trace of the model
calls that were actually made: for each invoked mode, the document content
passed into its contextual prompt (route.ts line 283:
`extractedText.substring(0, 8000)`). -/
structure AnalysisState where
  results : List (String × ModeOutcome)
  invoked : List (String × String)
deriving DecidableEq, Repr

/-- The outcome stored for one mode, as a function of the model-call
oracle. -/
def modeOutcomeOf (modeCall : String → Except String String)
    (timestamp mode : String) : ModeOutcome :=
  match modeCall mode with
  | .ok text => .success text
  | .error e => .errorEnvelope (handleErrorMessage e) timestamp

/-- One iteration of the `for (const mode of analysisModes)` loop
(route.ts lines 279-304): an unknown mode is skipped; a known mode's model
call stores its raw text on success or an error envelope on failure, and
either way the loop continues. -/
def stepMode (modeCall : String → Except String String)
    (timestamp extractedText : String) (st : AnalysisState) (mode : String) :
    AnalysisState :=
  if mode ∈ leaseAnalysisPromptKeys then
    { results := upsert st.results mode (modeOutcomeOf modeCall timestamp mode)
      invoked := st.invoked ++ [(mode, extractedText.take 8000)] }
  else st

/-- The whole analysis loop, processing modes left to right. -/
def runModesFrom (modeCall : String → Except String String)
    (timestamp extractedText : String) :
    AnalysisState → List String → AnalysisState
  | st, [] => st
  | st, mode :: rest =>
    runModesFrom modeCall timestamp extractedText
      (stepMode modeCall timestamp extractedText st mode) rest

/-- Outcomes of the external calls the route awaits, in call order. -/
structure PipelineEnv where
  /-- `process.env.GEMINI_API_KEY` is set (route.ts line 158). -/
  apiKeySet : Bool
  /-- `supabase.auth.getUser()` returned a user and no error. -/
  authenticated : Bool
  /-- `file.arrayBuffer()` (route.ts lines 218-224). -/
  bufferResult : Except String Unit
  /-- Storage upload: the stored path, or the error message. -/
  uploadResult : Except String String
  /-- Gemini text extraction: the extracted text, or the thrown error's
  message. -/
  extractResult : Except String String
  /-- The per-mode analysis model call: raw result text, or the thrown
  error's message. -/
  modeCall : String → Except String String
  /-- Database insert: the saved row's id, or the error message. -/
  dbResult : Except String String
  /-- `new Date().toISOString()` as used in the error envelopes. -/
  timestamp : String

/-- The parsed form fields the pipeline consumes. -/
structure UploadRequest where
  file : Option FileInfo
  leaseType : String
  analysisModes : List String

/-- The route's terminal responses. -/
inductive PipelineResult where
  /-- 500: GEMINI_API_KEY is not set. -/
  | configError
  /-- 401: no authenticated user. -/
  | authError
  /-- 400: one of the three validation rejections. -/
  | validationError (e : FileValidationError)
  /-- 400: `file.arrayBuffer()` threw. -/
  | bufferError (message : String)
  /-- 500: the storage upload failed. -/
  | uploadError (message : String)
  /-- 400: `'Insufficient text content extracted from PDF for analysis'`
  (route.ts lines 273-276). -/
  | insufficientContent
  /-- 500: the database insert failed. -/
  | dbError (message : String)
  /-- 200: the final JSON, carrying the extracted text (persisted) and the
  per-mode result mapping. -/
  | success (extractedText : String) (analysisResults : List (String × ModeOutcome))
deriving DecidableEq, Repr

/-- route.ts lines 248-266: the extraction result, with a thrown call
replaced by the sentinel `'Text extraction failed: ' + errorInfo.error`. -/
def extractedTextOf (env : PipelineEnv) : String :=
  match env.extractResult with
  | .ok text => text
  | .error e => "Text extraction failed: " ++ handleErrorMessage e

/-- The route's response plus the trace of analysis-mode model calls it
made. -/
structure PipelineOutput where
  result : PipelineResult
  invoked : List (String × String)
deriving DecidableEq, Repr

/-- The `POST` handler of `src/app/api/upload/route.ts`, stage by stage.
The content-sufficiency gate (line 273) fires when the extracted text
equals the exact string `'Text extraction failed'` or is shorter than 100
characters; only then is the session failed before any analysis mode
runs. -/
def runPipeline (env : PipelineEnv) (req : UploadRequest) : PipelineOutput :=
  if env.apiKeySet = false then ⟨.configError, []⟩
  else if env.authenticated = false then ⟨.authError, []⟩
  else
    match validateFile req.file with
    | .error e => ⟨.validationError e, []⟩
    | .ok _file =>
      match env.bufferResult with
      | .error e => ⟨.bufferError (handleErrorMessage e), []⟩
      | .ok _ =>
        match env.uploadResult with
        | .error e => ⟨.uploadError (handleErrorMessage e), []⟩
        | .ok _path =>
          let extractedText := extractedTextOf env
          if extractedText = "Text extraction failed" ∨ extractedText.length < 100 then
            ⟨.insufficientContent, []⟩
          else
            let st := runModesFrom env.modeCall env.timestamp extractedText
              ⟨[], []⟩ req.analysisModes
            match env.dbResult with
            | .error e => ⟨.dbError (handleErrorMessage e), st.invoked⟩
            | .ok _fileId => ⟨.success extractedText st.results, st.invoked⟩

/-- The entry the response's `analysis` mapping holds for a mode (`none`
when the response is not a success or the mode's key is absent). -/
def pipelineModeResult (out : PipelineOutput) (mode : String) : Option ModeOutcome :=
  match out.result with
  | .success _ results => lookupMode results mode
  | _ => none

theorem lookupMode_upsert (l : List (String × ModeOutcome)) (k : String)
    (v : ModeOutcome) (j : String) :
    lookupMode (upsert l k v) j = if j = k then some v else lookupMode l j := by
  induction l with
  | nil =>
    by_cases h : j = k
    · subst h; simp [upsert, lookupMode]
    · simp [upsert, lookupMode, h, Ne.symm h]
  | cons hd rest ih =>
    obtain ⟨a, b⟩ := hd
    by_cases h1 : a = k
    · subst h1
      by_cases h2 : j = a
      · subst h2; simp [upsert, lookupMode]
      · simp [upsert, lookupMode, h2, Ne.symm h2]
    · by_cases h2 : j = a
      · subst h2
        simp [upsert, lookupMode, h1, fun hh : j = k => h1 (hh ▸ rfl)]
      · simp [upsert, lookupMode, h1, Ne.symm h2, ih]

/-- The analysis loop's result mapping, pointwise: a requested (valid)
mode's key holds exactly its own model call's outcome; other keys are
untouched. -/
theorem runModesFrom_results (modeCall : String → Except String String)
    (timestamp extractedText : String) (modes : List String)
    (hvalid : ∀ m ∈ modes, m ∈ leaseAnalysisPromptKeys) :
    ∀ (st : AnalysisState) (k : String),
      lookupMode (runModesFrom modeCall timestamp extractedText st modes).results k
        = if k ∈ modes then some (modeOutcomeOf modeCall timestamp k)
          else lookupMode st.results k := by
  induction modes with
  | nil => intro st k; simp [runModesFrom]
  | cons m rest ih =>
    intro st k
    have hm : m ∈ leaseAnalysisPromptKeys := hvalid m (by simp)
    have hrest : ∀ x ∈ rest, x ∈ leaseAnalysisPromptKeys :=
      fun x hx => hvalid x (by simp [hx])
    simp only [runModesFrom]
    rw [ih hrest]
    by_cases hk : k ∈ rest
    · simp [hk]
    · simp only [stepMode, if_pos hm, lookupMode_upsert]
      by_cases hkm : k = m
      · subst hkm; simp [hk]
      · simp [hk, hkm]

/-- The analysis loop invokes the model once per requested (valid) mode, in
request order, passing the first 8000 characters of the extracted text as
the document content. -/
theorem runModesFrom_invoked (modeCall : String → Except String String)
    (timestamp extractedText : String) (modes : List String)
    (hvalid : ∀ m ∈ modes, m ∈ leaseAnalysisPromptKeys) :
    ∀ st : AnalysisState,
      (runModesFrom modeCall timestamp extractedText st modes).invoked
        = st.invoked ++ modes.map (fun m => (m, extractedText.take 8000)) := by
  induction modes with
  | nil => intro st; simp [runModesFrom]
  | cons m rest ih =>
    intro st
    have hm : m ∈ leaseAnalysisPromptKeys := hvalid m (by simp)
    simp only [runModesFrom]
    rw [ih (fun x hx => hvalid x (by simp [hx]))]
    simp [stepMode, if_pos hm]

/-- Reduction of the pipeline once validation, buffering, upload and the
content gate have all passed: only the database save remains between the
analysis loop and the success response. -/
theorem runPipeline_after_gate (env : PipelineEnv) (req : UploadRequest)
    (f : FileInfo) (p : String)
    (hkey : env.apiKeySet = true) (hauth : env.authenticated = true)
    (hbuf : env.bufferResult = Except.ok ())
    (hfile : validateFile req.file = Except.ok f)
    (hupload : env.uploadResult = Except.ok p)
    (hgate₁ : extractedTextOf env ≠ "Text extraction failed")
    (hgate₂ : 100 ≤ (extractedTextOf env).length) :
    runPipeline env req =
      (match env.dbResult with
       | .error e =>
         ⟨.dbError (handleErrorMessage e),
          (runModesFrom env.modeCall env.timestamp (extractedTextOf env)
            ⟨[], []⟩ req.analysisModes).invoked⟩
       | .ok _ =>
         ⟨.success (extractedTextOf env)
            (runModesFrom env.modeCall env.timestamp (extractedTextOf env)
              ⟨[], []⟩ req.analysisModes).results,
          (runModesFrom env.modeCall env.timestamp (extractedTextOf env)
            ⟨[], []⟩ req.analysisModes).invoked⟩) := by
  have hcond : ¬(extractedTextOf env = "Text extraction failed"
      ∨ (extractedTextOf env).length < 100) := by
    rintro (h | h)
    · exact hgate₁ h
    · omega
  unfold runPipeline
  rw [hkey, hauth, hfile, hbuf, hupload]
  simp only [Bool.true_eq_false, if_false, if_neg hcond]

/-- C3: when the extracted text is shorter than 100 characters, the
pipeline terminates at the content-sufficiency gate with the
insufficient-content response, and no analysis mode is ever run. -/
theorem pipeline_insufficient_content_gate (env : PipelineEnv)
    (req : UploadRequest) (f : FileInfo) (p : String)
    (hkey : env.apiKeySet = true) (hauth : env.authenticated = true)
    (hbuf : env.bufferResult = Except.ok ())
    (hfile : validateFile req.file = Except.ok f)
    (hupload : env.uploadResult = Except.ok p)
    (hshort : (extractedTextOf env).length < 100) :
    runPipeline env req = ⟨PipelineResult.insufficientContent, []⟩ := by
  unfold runPipeline
  rw [hkey, hauth, hfile, hbuf, hupload]
  simp only [Bool.true_eq_false, if_false, if_pos (Or.inr hshort)]

/-- A valid PDF upload request whose extraction yields too little text. -/
def shortTextEnv : PipelineEnv :=
  { apiKeySet := true
    authenticated := true
    bufferResult := .ok ()
    uploadResult := .ok "user-1/1700000000000-lease.pdf"
    extractResult := .ok "Lease."
    modeCall := fun _ => .ok "RAW ANALYSIS RESULT"
    dbResult := .ok "file-42"
    timestamp := "2026-01-01T00:00:00.000Z" }

def pdfRequest : UploadRequest :=
  { file := some ⟨"lease.pdf", "application/pdf", 4096⟩
    leaseType := "solar"
    analysisModes := ["standard", "legal"] }

/-- Witness for C3: a 6-character extraction fails the gate and the trace
of invoked analysis modes is empty. -/
theorem pipeline_insufficient_content_gate_witness :
    runPipeline shortTextEnv pdfRequest
      = ⟨PipelineResult.insufficientContent, []⟩ :=
  pipeline_insufficient_content_gate shortTextEnv pdfRequest
    ⟨"lease.pdf", "application/pdf", 4096⟩ "user-1/1700000000000-lease.pdf"
    rfl rfl rfl rfl rfl (by decide)

/-- C1: once the content gate has passed with a non-empty list of valid
modes, every requested mode's model call is made (with the document
content each received), the pipeline reaches the persistence stage and
returns a success result, and in the returned mapping each failed mode's
key holds an error envelope (message, timestamp) while each successful
mode's key holds its raw result text — one mode's failure never aborts
the others. -/
theorem pipeline_mode_failure_isolation (env : PipelineEnv)
    (req : UploadRequest) (f : FileInfo) (p fid : String)
    (hkey : env.apiKeySet = true) (hauth : env.authenticated = true)
    (hbuf : env.bufferResult = Except.ok ())
    (hfile : validateFile req.file = Except.ok f)
    (hupload : env.uploadResult = Except.ok p)
    (hgate₁ : extractedTextOf env ≠ "Text extraction failed")
    (hgate₂ : 100 ≤ (extractedTextOf env).length)
    (hmodes : ∀ m ∈ req.analysisModes, m ∈ leaseAnalysisPromptKeys)
    (_hne : req.analysisModes ≠ [])
    (hdb : env.dbResult = Except.ok fid) :
    (∃ results, (runPipeline env req).result
        = PipelineResult.success (extractedTextOf env) results)
    ∧ (runPipeline env req).invoked
        = req.analysisModes.map (fun m => (m, (extractedTextOf env).take 8000))
    ∧ ∀ m ∈ req.analysisModes,
        (∀ e, env.modeCall m = Except.error e →
          pipelineModeResult (runPipeline env req) m
            = some (ModeOutcome.errorEnvelope (handleErrorMessage e) env.timestamp))
        ∧ (∀ t, env.modeCall m = Except.ok t →
          pipelineModeResult (runPipeline env req) m
            = some (ModeOutcome.success t)) := by
  have hrun := runPipeline_after_gate env req f p hkey hauth hbuf hfile hupload
    hgate₁ hgate₂
  rw [hdb] at hrun
  have hrun2 : runPipeline env req =
      ⟨.success (extractedTextOf env)
        (runModesFrom env.modeCall env.timestamp (extractedTextOf env)
          ⟨[], []⟩ req.analysisModes).results,
       (runModesFrom env.modeCall env.timestamp (extractedTextOf env)
          ⟨[], []⟩ req.analysisModes).invoked⟩ := hrun
  refine ⟨⟨_, by rw [hrun2]⟩, ?_, ?_⟩
  · rw [hrun2]
    rw [runModesFrom_invoked env.modeCall env.timestamp (extractedTextOf env)
      req.analysisModes hmodes ⟨[], []⟩]
    simp
  · intro m hm
    have hlook : pipelineModeResult (runPipeline env req) m
        = some (modeOutcomeOf env.modeCall env.timestamp m) := by
      rw [hrun2]
      simp only [pipelineModeResult]
      rw [runModesFrom_results env.modeCall env.timestamp (extractedTextOf env)
        req.analysisModes hmodes ⟨[], []⟩ m]
      simp [hm]
    constructor
    · intro e he
      rw [hlook]
      simp [modeOutcomeOf, he]
    · intro t ht
      rw [hlook]
      simp [modeOutcomeOf, ht]

/-- A 121-character extraction result, long enough to pass the content
gate. -/
def sampleLeaseText : String :=
  "This Solar Land Lease Agreement is made between the Lessor and the Lessee for the development of a solar energy facility."

/-- A run in which the `legal` mode's model call throws and every other
mode's call succeeds. -/
def isolationEnv : PipelineEnv :=
  { apiKeySet := true
    authenticated := true
    bufferResult := .ok ()
    uploadResult := .ok "user-1/1700000000000-lease.pdf"
    extractResult := .ok sampleLeaseText
    modeCall := fun m =>
      if m = "legal" then .error "model call failed" else .ok "RAW ANALYSIS RESULT"
    dbResult := .ok "file-42"
    timestamp := "2026-01-01T00:00:00.000Z" }

/-- Witness for C1: with modes standard and legal where legal's call
throws, the pipeline still returns a success result, both modes were
invoked with the document content, legal's key holds the error envelope
and standard's key holds the raw text. -/
theorem pipeline_mode_failure_isolation_witness :
    (∃ results, (runPipeline isolationEnv pdfRequest).result
        = PipelineResult.success (extractedTextOf isolationEnv) results)
    ∧ (runPipeline isolationEnv pdfRequest).invoked
        = pdfRequest.analysisModes.map
            (fun m => (m, (extractedTextOf isolationEnv).take 8000))
    ∧ ∀ m ∈ pdfRequest.analysisModes,
        (∀ e, isolationEnv.modeCall m = Except.error e →
          pipelineModeResult (runPipeline isolationEnv pdfRequest) m
            = some (ModeOutcome.errorEnvelope (handleErrorMessage e)
                isolationEnv.timestamp))
        ∧ (∀ t, isolationEnv.modeCall m = Except.ok t →
          pipelineModeResult (runPipeline isolationEnv pdfRequest) m
            = some (ModeOutcome.success t)) :=
  pipeline_mode_failure_isolation isolationEnv pdfRequest
    ⟨"lease.pdf", "application/pdf", 4096⟩ "user-1/1700000000000-lease.pdf"
    "file-42" rfl rfl rfl rfl rfl (by decide) (by decide) (by decide)
    (by decide) rfl

/-- C4: for a session with a non-empty list of modes drawn from the fixed
registry that reaches the analysis stage, the key set of the returned
per-mode result mapping equals exactly the requested mode list, regardless
of per-mode success or failure. -/
theorem pipeline_result_keys_match_modes (env : PipelineEnv)
    (req : UploadRequest) (f : FileInfo) (p fid : String)
    (hkey : env.apiKeySet = true) (hauth : env.authenticated = true)
    (hbuf : env.bufferResult = Except.ok ())
    (hfile : validateFile req.file = Except.ok f)
    (hupload : env.uploadResult = Except.ok p)
    (hgate₁ : extractedTextOf env ≠ "Text extraction failed")
    (hgate₂ : 100 ≤ (extractedTextOf env).length)
    (hmodes : ∀ m ∈ req.analysisModes, m ∈ leaseAnalysisPromptKeys)
    (_hne : req.analysisModes ≠ [])
    (hdb : env.dbResult = Except.ok fid) :
    ∃ results, (runPipeline env req).result
        = PipelineResult.success (extractedTextOf env) results
      ∧ ∀ k, (lookupMode results k).isSome = true ↔ k ∈ req.analysisModes := by
  have hrun := runPipeline_after_gate env req f p hkey hauth hbuf hfile hupload
    hgate₁ hgate₂
  rw [hdb] at hrun
  have hrun2 : runPipeline env req =
      ⟨.success (extractedTextOf env)
        (runModesFrom env.modeCall env.timestamp (extractedTextOf env)
          ⟨[], []⟩ req.analysisModes).results,
       (runModesFrom env.modeCall env.timestamp (extractedTextOf env)
          ⟨[], []⟩ req.analysisModes).invoked⟩ := hrun
  refine ⟨_, by rw [hrun2], ?_⟩
  intro k
  rw [runModesFrom_results env.modeCall env.timestamp (extractedTextOf env)
    req.analysisModes hmodes ⟨[], []⟩ k]
  by_cases hk : k ∈ req.analysisModes
  · simp [hk]
  · simp [hk, lookupMode]

/-- A run requesting every mode of the registry. -/
def allModesRequest : UploadRequest :=
  { file := some ⟨"lease.pdf", "application/pdf", 4096⟩
    leaseType := "solar"
    analysisModes :=
      ["standard", "parsing", "redlining", "obligations", "renewal", "legal"] }

/-- Witness for C4: requesting all six registry modes (with legal's call
failing) yields a mapping whose keys are exactly those six modes. -/
theorem pipeline_result_keys_match_modes_witness :
    ∃ results, (runPipeline isolationEnv allModesRequest).result
        = PipelineResult.success (extractedTextOf isolationEnv) results
      ∧ ∀ k, (lookupMode results k).isSome = true
          ↔ k ∈ allModesRequest.analysisModes :=
  pipeline_result_keys_match_modes isolationEnv allModesRequest
    ⟨"lease.pdf", "application/pdf", 4096⟩ "user-1/1700000000000-lease.pdf"
    "file-42" rfl rfl rfl rfl rfl (by decide) (by decide) (by decide)
    (by decide) rfl

/-- C10: when the extraction call throws with a non-empty message `m`, the
extracted text becomes the sentinel `"Text extraction failed: " ++ m`; the
sentinel is never equal to the exact gate string `"Text extraction
failed"`, so whenever the sentinel reaches 100 characters the gate passes
and every requested analysis mode runs with the sentinel error string as
its document content. -/
theorem extraction_failure_sentinel_passes_gate (env : PipelineEnv)
    (req : UploadRequest) (f : FileInfo) (p m : String)
    (hkey : env.apiKeySet = true) (hauth : env.authenticated = true)
    (hbuf : env.bufferResult = Except.ok ())
    (hfile : validateFile req.file = Except.ok f)
    (hupload : env.uploadResult = Except.ok p)
    (hextract : env.extractResult = Except.error m)
    (hm : m ≠ "")
    (hlen : 100 ≤ ("Text extraction failed: " ++ m).length)
    (hmodes : ∀ md ∈ req.analysisModes, md ∈ leaseAnalysisPromptKeys) :
    extractedTextOf env = "Text extraction failed: " ++ m
    ∧ "Text extraction failed: " ++ m ≠ "Text extraction failed"
    ∧ (runPipeline env req).result ≠ PipelineResult.insufficientContent
    ∧ (runPipeline env req).invoked
        = req.analysisModes.map
            (fun md => (md, ("Text extraction failed: " ++ m).take 8000)) := by
  have hsent : extractedTextOf env = "Text extraction failed: " ++ m := by
    simp [extractedTextOf, hextract, handleErrorMessage, hm]
  have hne : "Text extraction failed: " ++ m ≠ "Text extraction failed" := by
    intro h
    have hl := congrArg String.length h
    rw [String.length_append] at hl
    have h24 : ("Text extraction failed: ").length = 24 := rfl
    have h22 : ("Text extraction failed").length = 22 := rfl
    omega
  have hrun := runPipeline_after_gate env req f p hkey hauth hbuf hfile hupload
    (by rw [hsent]; exact hne) (by rw [hsent]; exact hlen)
  refine ⟨hsent, hne, ?_, ?_⟩
  · rw [hrun]
    cases hdb : env.dbResult <;> simp
  · rw [hrun]
    have hinv := runModesFrom_invoked env.modeCall env.timestamp
      (extractedTextOf env) req.analysisModes hmodes ⟨[], []⟩
    cases hdb : env.dbResult <;> simp <;> rw [hinv, hsent] <;> simp

/-- An extraction failure whose 82-character message makes the sentinel
106 characters long. -/
def failingExtractionEnv : PipelineEnv :=
  { apiKeySet := true
    authenticated := true
    bufferResult := .ok ()
    uploadResult := .ok "user-1/1700000000000-lease.pdf"
    extractResult := .error
      "The model request timed out after sixty seconds while processing the inline PDF data"
    modeCall := fun _ => .ok "RAW ANALYSIS RESULT"
    dbResult := .ok "file-42"
    timestamp := "2026-01-01T00:00:00.000Z" }

/-- Witness for C10: with a long extraction-failure message the gate
passes and both requested modes run on the sentinel text. -/
theorem extraction_failure_sentinel_passes_gate_witness :
    extractedTextOf failingExtractionEnv
      = "Text extraction failed: "
        ++ "The model request timed out after sixty seconds while processing the inline PDF data"
    ∧ "Text extraction failed: "
        ++ "The model request timed out after sixty seconds while processing the inline PDF data"
        ≠ "Text extraction failed"
    ∧ (runPipeline failingExtractionEnv pdfRequest).result
        ≠ PipelineResult.insufficientContent
    ∧ (runPipeline failingExtractionEnv pdfRequest).invoked
        = pdfRequest.analysisModes.map
            (fun md =>
              (md, ("Text extraction failed: "
                ++ "The model request timed out after sixty seconds while processing the inline PDF data").take 8000)) :=
  extraction_failure_sentinel_passes_gate failingExtractionEnv pdfRequest
    ⟨"lease.pdf", "application/pdf", 4096⟩ "user-1/1700000000000-lease.pdf"
    "The model request timed out after sixty seconds while processing the inline PDF data"
    rfl rfl rfl rfl rfl rfl (by decide) (by decide) (by decide)

/-- C5 counterexample: a 1 KiB upload declared as DOCX is rejected by the
validation stage (route.ts line 204 allows only `application/pdf`), where
the claim says a DOCX declaration within the size ceiling is accepted. -/
theorem docx_upload_rejected_counterexample :
    validateFile (some
        ⟨"lease.docx",
         "application/vnd.openxmlformats-officedocument.wordprocessingml.document",
         1024⟩)
      = Except.error (FileValidationError.invalidType
          "application/vnd.openxmlformats-officedocument.wordprocessingml.document") := by
  rfl

/-- C5 amended: validation rejects exactly when no file is present, when
the declared MIME type differs from `application/pdf` (so DOCX and legacy
DOC uploads are rejected too), or when the size exceeds the 50 MiB
ceiling; only a PDF declaration within the ceiling passes. -/
theorem validation_accepts_only_pdf :
    validateFile none = Except.error FileValidationError.noFile
    ∧ (∀ f : FileInfo, f.type = "application/pdf" → f.size ≤ maxFileSize →
        validateFile (some f) = Except.ok f)
    ∧ (∀ f : FileInfo, f.type ≠ "application/pdf" →
        validateFile (some f) = Except.error (FileValidationError.invalidType f.type))
    ∧ (∀ f : FileInfo, f.type = "application/pdf" → maxFileSize < f.size →
        validateFile (some f) = Except.error (FileValidationError.tooLarge f.size)) := by
  refine ⟨rfl, ?_, ?_, ?_⟩
  · intro f ht hs
    simp [validateFile, ht, Nat.not_lt.mpr hs]
  · intro f ht
    simp [validateFile, ht]
  · intro f ht hs
    simp [validateFile, ht, hs]

/-! ## Chat service and chat route

`src/lib/chat-service-basic.ts` and `src/app/api/chat/route.ts`.  Each
service method wraps its single model call in a try/catch whose catch
branch returns an apology string embedding the thrown error's message —
a value indistinguishable from a successful model answer.  The route's
own try/catch around the service call (route.ts lines 122-150) therefore
never fires for a model failure, and the apology text is saved as the
assistant message and returned in a 200 response.  The model call's
outcome is the oracle argument (its message for a thrown `Error`). -/

/-- The catch branch of `chatWithDocument` (chat-service-basic.ts line
66). -/
def documentChatApology (errMessage : String) : String :=
  "I apologize, but I encountered an error while processing your request. Please try again or contact support if the issue persists. Error: "
    ++ errMessage

/-- `ChatService.chatWithDocument`: return the model's text, or the
apology string when the call throws.  The method never throws. -/
def chatWithDocument (modelCall : Except String String) : String :=
  match modelCall with
  | .ok text => text
  | .error e => documentChatApology e

/-- The catch branch of `chatWithProject` (chat-service-basic.ts line
158). -/
def projectChatApology (errMessage : String) : String :=
  "I apologize, but I encountered an error while processing your portfolio analysis request. Please try again or contact support if the issue persists. Error: "
    ++ errMessage

/-- `ChatService.chatWithProject`: same shape as `chatWithDocument`. -/
def chatWithProject (modelCall : Except String String) : String :=
  match modelCall with
  | .ok text => text
  | .error e => projectChatApology e

/-- The chat route's terminal responses: a 200 success carrying the
assistant message, or a non-2xx JSON error object. -/
inductive ChatRouteOutcome where
  | success (message : String)
  | errorResponse (error : String)
deriving DecidableEq, Repr

/-- The response-generation tail of the chat route (chat/route.ts lines
105-170): save the user message, call the service — whose result is a
plain string even when the model call failed, so the catch at lines
145-150 ("Failed to generate AI response. Please try again.") is
unreachable for a model failure — save the assistant message, and return
200 with the service's string. -/
def chatRoute (isDocumentChat : Bool) (modelCall : Except String String)
    (saveUserOk saveAssistantOk : Bool) : ChatRouteOutcome :=
  if saveUserOk = false then .errorResponse "Failed to save message"
  else
    let response :=
      if isDocumentChat then chatWithDocument modelCall
      else chatWithProject modelCall
    if saveAssistantOk = false then .errorResponse "Failed to save response"
    else .success response

/-- C8 counterexample: a failed model call in a document chat turn is
returned as a normal 200 success whose message is the apology text — not
as a retryable error response. -/
theorem chat_model_failure_counterexample :
    chatRoute true (Except.error "model unavailable") true true
      = ChatRouteOutcome.success (documentChatApology "model unavailable")
    ∧ ∀ e, ChatRouteOutcome.success (documentChatApology "model unavailable")
        ≠ ChatRouteOutcome.errorResponse e :=
  ⟨rfl, fun _ h => ChatRouteOutcome.noConfusion h⟩

/-- C8 amended: when the single model call of a chat turn fails, the
service catches the failure internally and returns an apology string
embedding the error message; with the message saves succeeding, the route
returns that string as a normal success response, so the failure is
swallowed rather than surfaced as a retryable error (the route's 500
retry path fires only if the service itself throws, which its catch
prevents). -/
theorem chat_model_failure_swallowed (e : String) :
    chatWithDocument (Except.error e) = documentChatApology e
    ∧ chatWithProject (Except.error e) = projectChatApology e
    ∧ chatRoute true (Except.error e) true true
        = ChatRouteOutcome.success (documentChatApology e)
    ∧ chatRoute false (Except.error e) true true
        = ChatRouteOutcome.success (projectChatApology e) :=
  ⟨rfl, rfl, rfl, rfl⟩

/-! ## Obligations extraction route

`src/app/api/generate-obligations-csv/route.ts` `POST`, lines 87-124.
The cleaned model output is handed to `JSON.parse`; the parse outcome is
the oracle argument here (`none` = the parse threw, `some v` = the parsed
JSON value).  The parsed value is cast, not validated: record fields are
only read later, while building CSV rows, with `obligation.party || ''`
and friends.  Numbers are modelled as integers (no claim involves
fractional values); `JSON.parse` output has unique object keys (a
duplicate key in the source text keeps the last value), so field lookup
takes the first match. -/

inductive JsonValue where
  | null
  | bool (b : Bool)
  | num (n : Int)
  | str (s : String)
  | arr (elems : List JsonValue)
  | obj (fields : List (String × JsonValue))

/-- The record built in the parse-failure catch branch (route.ts lines
96-104). -/
def parseFailureSentinel : JsonValue :=
  .obj [("party", .str "N/A"),
        ("description", .str "Failed to extract obligations from document analysis"),
        ("timeline", .str "N/A"),
        ("enforceability", .str "N/A"),
        ("phase", .str "GENERAL"),
        ("consequence", .str "N/A"),
        ("category", .str "Information")]

/-- The record built when no obligations were found (route.ts lines
115-123). -/
def noObligationsSentinel : JsonValue :=
  .obj [("party", .str "N/A"),
        ("description", .str "No technical obligations found in this document"),
        ("timeline", .str "N/A"),
        ("enforceability", .str "N/A"),
        ("phase", .str "GENERAL"),
        ("consequence", .str "N/A"),
        ("category", .str "Information")]

/-- route.ts lines 87-124: parse (catch substitutes the parse-failure
sentinel, itself an array of one record); coerce a non-array value to
`[]`; replace an empty array by the no-obligations sentinel.  The
elements of a successfully parsed non-empty array pass through without
validation or repair. -/
def generateObligationsCsvRecords (parsed : Option JsonValue) : List JsonValue :=
  let afterParse : JsonValue :=
    match parsed with
    | some v => v
    | none => .arr [parseFailureSentinel]
  let asArray : List JsonValue :=
    match afterParse with
    | .arr xs => xs
    | _ => []
  if asArray.length = 0 then [noObligationsSentinel] else asArray

/-- JavaScript truthiness of a JSON value (`NaN` is unrepresentable in the
integer number model). -/
def jsTruthy : JsonValue → Bool
  | .null => false
  | .bool b => b
  | .num n => n != 0
  | .str s => s != ""
  | .arr _ => true
  | .obj _ => true

def lookupField : List (String × JsonValue) → String → Option JsonValue
  | [], _ => none
  | (k', v') :: rest, k => if k' = k then some v' else lookupField rest k

mutual
/-- `String(x)` on a JSON value.  An array stringifies as its elements
joined with commas, with null elements rendered empty (JavaScript
`Array.prototype.toString`). -/
def jsToString : JsonValue → String
  | .null => "null"
  | .bool b => if b then "true" else "false"
  | .num n => toString n
  | .str s => s
  | .arr xs => jsJoin xs
  | .obj _ => "[object Object]"

def jsJoin : List JsonValue → String
  | [] => ""
  | [x] =>
    match x with
    | .null => ""
    | y => jsToString y
  | x :: xs =>
    (match x with
     | .null => ""
     | y => jsToString y) ++ "," ++ jsJoin xs
end

/-- The CSV-row field read `String(obligation.party || '')` (route.ts
lines 140-160): property lookup on an object, empty string for a missing
property or a falsy value, property access on a string/number/array
record yields `undefined` hence the empty string.  (A `null` record would
make the real code throw while building rows; no claim exercises that
path.) -/
def getStrField (record : JsonValue) (key : String) : String :=
  match record with
  | .obj fields =>
    match lookupField fields key with
    | some v => if jsTruthy v then jsToString v else ""
    | none => ""
  | _ => ""

/-- C2 counterexample: the model output `[` `\x7b` `\x7d` `]` — a JSON
array holding one empty object — parses successfully, so the route
returns that record unchanged, and its party and description fields are
empty: the claimed field non-emptiness fails on the code. -/
theorem obligations_empty_fields_counterexample :
    generateObligationsCsvRecords (some (JsonValue.arr [JsonValue.obj []]))
        = [JsonValue.obj []]
    ∧ getStrField (JsonValue.obj []) "party" = ""
    ∧ getStrField (JsonValue.obj []) "description" = "" :=
  ⟨rfl, rfl, rfl⟩

/-- C2 amended: the route always returns a non-empty array — a JSON-parse
failure yields the single parse-failure sentinel and an empty or
non-array parse result yields the single no-obligations sentinel, both
with category "Information" and every field non-empty — but the records
of a successfully parsed non-empty array pass through without validation
or repair, so their fields are not guaranteed non-empty. -/
theorem obligations_csv_total_nonempty (parsed : Option JsonValue) :
    generateObligationsCsvRecords parsed ≠ []
    ∧ (parsed = none →
        generateObligationsCsvRecords parsed = [parseFailureSentinel])
    ∧ (∀ xs, parsed = some (JsonValue.arr xs) → xs ≠ [] →
        generateObligationsCsvRecords parsed = xs)
    ∧ (parsed = some (JsonValue.arr []) →
        generateObligationsCsvRecords parsed = [noObligationsSentinel])
    ∧ (∀ v, parsed = some v → (∀ xs, v ≠ JsonValue.arr xs) →
        generateObligationsCsvRecords parsed = [noObligationsSentinel])
    ∧ getStrField parseFailureSentinel "category" = "Information"
    ∧ getStrField noObligationsSentinel "category" = "Information" := by
  refine ⟨?_, ?_, ?_, ?_, ?_, rfl, rfl⟩
  · match parsed with
    | none => exact fun h => List.noConfusion h
    | some (.arr []) => exact fun h => List.noConfusion h
    | some (.arr (x :: xs)) => simp [generateObligationsCsvRecords]
    | some .null => exact fun h => List.noConfusion h
    | some (.bool b) => exact fun h => List.noConfusion h
    | some (.num n) => exact fun h => List.noConfusion h
    | some (.str s) => exact fun h => List.noConfusion h
    | some (.obj fs) => exact fun h => List.noConfusion h
  · rintro rfl; rfl
  · rintro xs rfl hxs
    simp [generateObligationsCsvRecords, List.length_eq_zero, hxs]
  · rintro rfl; rfl
  · rintro v rfl hv
    match v, hv with
    | .null, _ => rfl
    | .bool b, _ => rfl
    | .num n, _ => rfl
    | .str s, _ => rfl
    | .obj fs, _ => rfl
    | .arr xs, hv => exact absurd rfl (hv xs)

/-! ## Model-output cleaning

The two routes clean the model's text identically
(generate-obligations-csv/route.ts lines 78-85 and
export-obligations/[id]/route.ts lines 124-131):

  text.replace(/```json\n?/g, '').replace(/```\n?/g, '').trim()

followed by `indexOf('[')` / `lastIndexOf(']')` and, when both are found
with the close bracket after the open bracket, `substring(start, end+1)`.
Each global regex replace is a single left-to-right scan: at every
position the regex matches greedily (the token with the optional trailing
newline first), the match is removed, and scanning resumes after it — the
spliced-together text is not rescanned.  `stripTokens` is that scan for a
two-alternative token pair. -/

def fenceJsonNl : List Char := ['`', '`', '`', 'j', 's', 'o', 'n', '\n']

def fenceJson : List Char := ['`', '`', '`', 'j', 's', 'o', 'n']

def fencePlainNl : List Char := ['`', '`', '`', '\n']

def fencePlain : List Char := ['`', '`', '`']

/-- One global regex replace with empty replacement, for a regex
`long|short` where `long = short ++ [newline]`: a left-to-right scan
removing the longest alternative that matches at each position. -/
def stripTokens (long short : List Char) (hl : 0 < long.length)
    (hs : 0 < short.length) : List Char → List Char
  | [] => []
  | c :: rest =>
    if long.isPrefixOf (c :: rest) then
      stripTokens long short hl hs ((c :: rest).drop long.length)
    else if short.isPrefixOf (c :: rest) then
      stripTokens long short hl hs ((c :: rest).drop short.length)
    else
      c :: stripTokens long short hl hs rest
termination_by s => s.length
decreasing_by
  · simp; omega
  · simp; omega
  · simp

/-- The first replace: `text.replace(/```json\n?/g, '')`. -/
def stripJsonFences (s : List Char) : List Char :=
  stripTokens fenceJsonNl fenceJson (by decide) (by decide) s

/-- The second replace: `text.replace(/```\n?/g, '')`. -/
def stripPlainFences (s : List Char) : List Char :=
  stripTokens fencePlainNl fencePlain (by decide) (by decide) s

/-- The whitespace stripped by `String.prototype.trim` (ASCII part; the
texts involved are ASCII). -/
def jsWhitespaceChar (c : Char) : Bool :=
  c == ' ' || c == '\t' || c == '\n' || c == '\r' || c == '\x0b' || c == '\x0c'

/-- `text.trim()`. -/
def trimChars (s : List Char) : List Char :=
  ((s.dropWhile jsWhitespaceChar).reverse.dropWhile jsWhitespaceChar).reverse

/-- `text.indexOf(c)` (as an `Option` instead of `-1`). -/
def firstIdxOf (c : Char) : List Char → Option Nat
  | [] => none
  | x :: xs => if x = c then some 0 else (firstIdxOf c xs).map (· + 1)

/-- `text.lastIndexOf(c)` (as an `Option` instead of `-1`). -/
def lastIdxOf (c : Char) : List Char → Option Nat
  | [] => none
  | x :: xs =>
    match lastIdxOf c xs with
    | some k => some (k + 1)
    | none => if x = c then some 0 else none

/-- The bracket search and slice: when both brackets are found with the
close after the open, `substring(jsonStart, jsonEnd + 1)`; otherwise the
text is left as is. -/
def sliceBrackets (s : List Char) : List Char :=
  match firstIdxOf '[' s, lastIdxOf ']' s with
  | some i, some j => if i < j then (s.drop i).take (j - i + 1) else s
  | some _, none => s
  | none, _ => s

def cleanChars (s : List Char) : List Char :=
  sliceBrackets (trimChars (stripPlainFences (stripJsonFences s)))

/-- The whole cleaning step applied to the model's response text. -/
def cleanObligationsText (s : String) : String :=
  String.mk (cleanChars s.data)

theorem isPrefixOf_append_self (l t : List Char) : l.isPrefixOf (l ++ t) = true := by
  induction l with
  | nil => cases t <;> rfl
  | cons a as ih => simp [List.isPrefixOf, ih]

theorem isPrefixOf_head_ne (a b : Char) (t rest : List Char) (h : b ≠ a) :
    (a :: t).isPrefixOf (b :: rest) = false := by
  have hab : (a == b) = false := beq_eq_false_iff_ne.mpr (Ne.symm h)
  simp [List.isPrefixOf, hab]

/-- The scan passes a backtick-free prefix through unchanged: both token
alternatives start with a backtick, so no match can start inside it. -/
theorem stripTokens_append_no_backtick (long short : List Char)
    (hl : 0 < long.length) (hs : 0 < short.length)
    (hlh : ∃ lt, long = '`' :: lt) (hsh : ∃ st, short = '`' :: st)
    (xs : List Char) (hxs : '`' ∉ xs) :
    ∀ ys, stripTokens long short hl hs (xs ++ ys)
      = xs ++ stripTokens long short hl hs ys := by
  obtain ⟨lt, rfl⟩ := hlh
  obtain ⟨st, rfl⟩ := hsh
  induction xs with
  | nil => intro ys; simp
  | cons x xs ih =>
    intro ys
    have hx : x ≠ '`' := fun h => hxs (by simp [h])
    have hxs' : '`' ∉ xs := fun h => hxs (List.mem_cons_of_mem x h)
    have h1 : ('`' :: lt).isPrefixOf (x :: (xs ++ ys)) = false :=
      isPrefixOf_head_ne '`' x lt (xs ++ ys) hx
    have h2 : ('`' :: st).isPrefixOf (x :: (xs ++ ys)) = false :=
      isPrefixOf_head_ne '`' x st (xs ++ ys) hx
    simp only [List.cons_append, stripTokens, h1, h2, Bool.false_eq_true,
      if_false]
    rw [ih hxs' ys]

/-- The scan removes the long token when the text starts with it. -/
theorem stripTokens_cancel_long (long short : List Char) (hl : 0 < long.length)
    (hs : 0 < short.length) (ys : List Char) :
    stripTokens long short hl hs (long ++ ys)
      = stripTokens long short hl hs ys := by
  obtain ⟨a, lt, rfl⟩ : ∃ a lt, long = a :: lt := by
    cases long with
    | nil => simp at hl
    | cons a lt => exact ⟨a, lt, rfl⟩
  have hpre : (a :: lt).isPrefixOf ((a :: lt) ++ ys) = true :=
    isPrefixOf_append_self (a :: lt) ys
  have hdrop : ((a :: lt) ++ ys).drop (a :: lt).length = ys :=
    List.drop_left (a :: lt) ys
  simp only [List.cons_append] at hpre hdrop
  simp only [List.cons_append, stripTokens, hpre, if_true]
  rw [hdrop]

/-- The scan removes the short token when the text starts with it and the
long token does not match there. -/
theorem stripTokens_cancel_short (long short : List Char) (hl : 0 < long.length)
    (hs : 0 < short.length) (ys : List Char)
    (h1 : long.isPrefixOf (short ++ ys) = false) :
    stripTokens long short hl hs (short ++ ys)
      = stripTokens long short hl hs ys := by
  obtain ⟨a, st, rfl⟩ : ∃ a st, short = a :: st := by
    cases short with
    | nil => simp at hs
    | cons a st => exact ⟨a, st, rfl⟩
  have hpre : (a :: st).isPrefixOf ((a :: st) ++ ys) = true :=
    isPrefixOf_append_self (a :: st) ys
  have hdrop : ((a :: st) ++ ys).drop (a :: st).length = ys :=
    List.drop_left (a :: st) ys
  simp only [List.cons_append] at hpre hdrop h1
  simp only [List.cons_append, stripTokens, h1, Bool.false_eq_true, if_false,
    hpre, if_true]
  rw [hdrop]

/-- The scan keeps a character at which neither token matches. -/
theorem stripTokens_cons_no_match (long short : List Char) (hl : 0 < long.length)
    (hs : 0 < short.length) {c : Char} {rest : List Char}
    (h1 : long.isPrefixOf (c :: rest) = false)
    (h2 : short.isPrefixOf (c :: rest) = false) :
    stripTokens long short hl hs (c :: rest)
      = c :: stripTokens long short hl hs rest := by
  simp only [stripTokens, h1, h2, Bool.false_eq_true, if_false]

theorem stripTokens_nil (long short : List Char) (hl : 0 < long.length)
    (hs : 0 < short.length) : stripTokens long short hl hs [] = [] := by
  simp [stripTokens]

/-- A text with no run of three consecutive backticks (the common prefix of
every fence token). -/
def hasTripleBacktick : List Char → Bool
  | [] => false
  | c :: rest =>
    (['`', '`', '`'] : List Char).isPrefixOf (c :: rest) || hasTripleBacktick rest

theorem tokenPrefixHasTriple (t z : List Char)
    (h : ('`' :: '`' :: '`' :: t).isPrefixOf z = true) :
    (['`', '`', '`'] : List Char).isPrefixOf z = true := by
  rw [List.isPrefixOf_iff_prefix] at h ⊢
  exact List.IsPrefix.trans ⟨t, rfl⟩ h

/-- A triple backtick cannot sit at the head of `xs ++ ys` when `xs` has no
triple-backtick run and does not end in a backtick. -/
theorem triple_not_prefix (xs ys : List Char) (hne : xs ≠ [])
    (hx3 : hasTripleBacktick xs = false)
    (hxlast : ∀ c ∈ xs.getLast?, c ≠ '`') :
    (['`', '`', '`'] : List Char).isPrefixOf (xs ++ ys) = false := by
  match xs, hne with
  | [x], _ =>
    have hx : x ≠ '`' := hxlast x (by simp)
    have hb : (('`' : Char) == x) = false := beq_eq_false_iff_ne.mpr (Ne.symm hx)
    simp [List.isPrefixOf, hb]
  | [x, y], _ =>
    have hy : y ≠ '`' := hxlast y (by simp [List.getLast?_cons_cons])
    have hb : (('`' : Char) == y) = false := beq_eq_false_iff_ne.mpr (Ne.symm hy)
    simp [List.isPrefixOf, hb]
  | x :: y :: z :: rest, _ =>
    by_cases hx : x = '`'
    · by_cases hy : y = '`'
      · by_cases hz : z = '`'
        · subst hx; subst hy; subst hz
          simp [hasTripleBacktick, List.isPrefixOf] at hx3
        · have hb : (('`' : Char) == z) = false := beq_eq_false_iff_ne.mpr (Ne.symm hz)
          simp [List.isPrefixOf, hb]
      · have hb : (('`' : Char) == y) = false := beq_eq_false_iff_ne.mpr (Ne.symm hy)
        simp [List.isPrefixOf, hb]
    · have hb : (('`' : Char) == x) = false := beq_eq_false_iff_ne.mpr (Ne.symm hx)
      simp [List.isPrefixOf, hb]

/-- A segment with no triple-backtick run and a non-backtick last character
passes through the scan unchanged, whatever follows it: every token starts
with three consecutive backticks, so no match can start inside the
segment, and none can span out of it. -/
theorem stripTokens_append_no_triple (long short : List Char)
    (hl : 0 < long.length) (hs : 0 < short.length)
    (hl3 : ∃ lt, long = '`' :: '`' :: '`' :: lt)
    (hs3 : ∃ st, short = '`' :: '`' :: '`' :: st)
    (xs : List Char) (hx3 : hasTripleBacktick xs = false)
    (hxlast : ∀ c ∈ xs.getLast?, c ≠ '`') :
    ∀ ys, stripTokens long short hl hs (xs ++ ys)
      = xs ++ stripTokens long short hl hs ys := by
  obtain ⟨lt, rfl⟩ := hl3
  obtain ⟨st, rfl⟩ := hs3
  induction xs with
  | nil => intro ys; simp
  | cons x xs ih =>
    intro ys
    have htri : (['`', '`', '`'] : List Char).isPrefixOf ((x :: xs) ++ ys) = false :=
      triple_not_prefix (x :: xs) ys (List.cons_ne_nil x xs) hx3 hxlast
    rw [List.cons_append] at htri
    have h1 : ('`' :: '`' :: '`' :: lt).isPrefixOf (x :: (xs ++ ys)) = false := by
      cases hb : ('`' :: '`' :: '`' :: lt).isPrefixOf (x :: (xs ++ ys)) with
      | false => rfl
      | true =>
        rw [tokenPrefixHasTriple lt _ hb] at htri
        exact absurd htri (by simp)
    have h2 : ('`' :: '`' :: '`' :: st).isPrefixOf (x :: (xs ++ ys)) = false := by
      cases hb : ('`' :: '`' :: '`' :: st).isPrefixOf (x :: (xs ++ ys)) with
      | false => rfl
      | true =>
        rw [tokenPrefixHasTriple st _ hb] at htri
        exact absurd htri (by simp)
    have hx3' : hasTripleBacktick xs = false := by
      simp only [hasTripleBacktick, Bool.or_eq_false_iff] at hx3
      exact hx3.2
    have hxlast' : ∀ c ∈ xs.getLast?, c ≠ '`' := by
      intro c hc
      apply hxlast
      cases xs with
      | nil => simp at hc
      | cons y l => rw [List.getLast?_cons_cons]; exact hc
    simp only [List.cons_append, stripTokens, h1, h2, Bool.false_eq_true,
      if_false]
    rw [ih hx3' hxlast' ys]

/-- Scanning an arbitrary prefix `xs` placed before text that starts with an
open bracket: no token contains an open bracket, so no match started in
`xs` can reach past it, and the scan decomposes — the output is some
subcollection of `xs`'s characters followed by the scan of the rest. -/
theorem stripTokens_append_open_aux (long short : List Char)
    (hl : 0 < long.length) (hs : 0 < short.length)
    (hlb : '[' ∉ long) (hsb : '[' ∉ short) (ys : List Char) :
    ∀ (n : Nat) (xs : List Char), xs.length ≤ n →
      ∃ u, stripTokens long short hl hs (xs ++ '[' :: ys)
        = u ++ stripTokens long short hl hs ('[' :: ys)
        ∧ ∀ c ∈ u, c ∈ xs := by
  intro n
  induction n with
  | zero =>
    intro xs hlen
    have hnil : xs = [] := List.eq_nil_of_length_eq_zero (Nat.le_zero.mp hlen)
    subst hnil
    exact ⟨[], by simp, by simp⟩
  | succ n ih =>
    intro xs hlen
    cases xs with
    | nil => exact ⟨[], by simp, by simp⟩
    | cons x xs₀ =>
      have hconsume : ∀ tok : List Char, '[' ∉ tok →
          tok.isPrefixOf ((x :: xs₀) ++ '[' :: ys) = true →
          tok.length ≤ (x :: xs₀).length := by
        intro tok htokb htok
        by_contra hgt
        push_neg at hgt
        have hpre : tok <+: (x :: xs₀) ++ '[' :: ys :=
          List.isPrefixOf_iff_prefix.mp htok
        obtain ⟨t, ht⟩ := hpre
        obtain ⟨d, ds, hds⟩ : ∃ d ds, tok.drop (x :: xs₀).length = d :: ds := by
          cases hcase : tok.drop (x :: xs₀).length with
          | nil =>
            have hlen0 := congrArg List.length hcase
            simp only [List.length_drop, List.length_nil] at hlen0
            omega
          | cons d ds => exact ⟨d, ds, rfl⟩
        have heq : '[' :: ys = (d :: ds) ++ t := by
          calc '[' :: ys
              = ((x :: xs₀) ++ '[' :: ys).drop (x :: xs₀).length :=
                (List.drop_left _ _).symm
            _ = (tok ++ t).drop (x :: xs₀).length := by rw [ht]
            _ = tok.drop (x :: xs₀).length ++ t :=
                List.drop_append_of_le_length (by omega)
            _ = (d :: ds) ++ t := by rw [hds]
        have hdl : d = '[' := by
          rw [List.cons_append] at heq
          exact (List.cons.injEq _ _ _ _ ▸ heq).1.symm
        have hmem : d ∈ tok := (List.drop_sublist _ _).subset
          (by rw [hds]; exact List.mem_cons_self d ds)
        rw [hdl] at hmem
        exact htokb hmem
      by_cases h1 : long.isPrefixOf ((x :: xs₀) ++ '[' :: ys) = true
      · have hlen2 := hconsume long hlb h1
        have hxpre : long <+: x :: xs₀ :=
          List.prefix_of_prefix_length_le (List.isPrefixOf_iff_prefix.mp h1)
            (List.prefix_append _ _) hlen2
        obtain ⟨xs₁, hxs₁⟩ := hxpre
        have hstep : stripTokens long short hl hs ((x :: xs₀) ++ '[' :: ys)
            = stripTokens long short hl hs (xs₁ ++ '[' :: ys) := by
          have e : (x :: xs₀) ++ '[' :: ys = long ++ (xs₁ ++ '[' :: ys) := by
            rw [← hxs₁]; simp
          rw [e, stripTokens_cancel_long]
        have hlen1 : xs₁.length ≤ n := by
          have hsum : long.length + xs₁.length = (x :: xs₀).length := by
            rw [← hxs₁]; simp
          simp only [List.length_cons] at hsum hlen
          omega
        obtain ⟨u, hu, hmem⟩ := ih xs₁ hlen1
        refine ⟨u, by rw [hstep, hu], ?_⟩
        intro c hc
        rw [← hxs₁]
        exact List.mem_append_right long (hmem c hc)
      · by_cases h2 : short.isPrefixOf ((x :: xs₀) ++ '[' :: ys) = true
        · have hlen2 := hconsume short hsb h2
          have hxpre : short <+: x :: xs₀ :=
            List.prefix_of_prefix_length_le (List.isPrefixOf_iff_prefix.mp h2)
              (List.prefix_append _ _) hlen2
          obtain ⟨xs₁, hxs₁⟩ := hxpre
          have h1' : long.isPrefixOf (short ++ (xs₁ ++ '[' :: ys)) = false := by
            rw [Bool.not_eq_true] at h1
            have e : short ++ (xs₁ ++ '[' :: ys) = (x :: xs₀) ++ '[' :: ys := by
              rw [← hxs₁]; simp
            rw [e]
            exact h1
          have hstep : stripTokens long short hl hs ((x :: xs₀) ++ '[' :: ys)
              = stripTokens long short hl hs (xs₁ ++ '[' :: ys) := by
            have e : (x :: xs₀) ++ '[' :: ys = short ++ (xs₁ ++ '[' :: ys) := by
              rw [← hxs₁]; simp
            rw [e, stripTokens_cancel_short long short hl hs _ h1']
          have hlen1 : xs₁.length ≤ n := by
            have hsum : short.length + xs₁.length = (x :: xs₀).length := by
              rw [← hxs₁]; simp
            simp only [List.length_cons] at hsum hlen
            omega
          obtain ⟨u, hu, hmem⟩ := ih xs₁ hlen1
          refine ⟨u, by rw [hstep, hu], ?_⟩
          intro c hc
          rw [← hxs₁]
          exact List.mem_append_right short (hmem c hc)
        · rw [Bool.not_eq_true] at h1 h2
          rw [List.cons_append] at h1 h2
          have hstep := stripTokens_cons_no_match long short hl hs h1 h2
          have hlen0 : xs₀.length ≤ n := by
            simp only [List.length_cons] at hlen
            omega
          obtain ⟨u, hu, hmem⟩ := ih xs₀ hlen0
          refine ⟨x :: u, ?_, ?_⟩
          · rw [List.cons_append, hstep, hu]
            rfl
          · intro c hc
            rcases List.mem_cons.mp hc with h | h
            · exact h ▸ List.mem_cons_self x xs₀
            · exact List.mem_cons_of_mem x (hmem c h)

theorem stripTokens_append_open (long short : List Char)
    (hl : 0 < long.length) (hs : 0 < short.length)
    (hlb : '[' ∉ long) (hsb : '[' ∉ short) (xs ys : List Char) :
    ∃ u, stripTokens long short hl hs (xs ++ '[' :: ys)
      = u ++ stripTokens long short hl hs ('[' :: ys)
      ∧ ∀ c ∈ u, c ∈ xs :=
  stripTokens_append_open_aux long short hl hs hlb hsb ys xs.length xs
    (Nat.le_refl _)

/-- Every character of the scan's output is a character of its input: the
scan only deletes. -/
theorem mem_stripTokens_aux (long short : List Char) (hl : 0 < long.length)
    (hs : 0 < short.length) (c : Char) :
    ∀ (n : Nat) (s : List Char), s.length ≤ n →
      c ∈ stripTokens long short hl hs s → c ∈ s := by
  intro n
  induction n with
  | zero =>
    intro s hlen hmem
    have hnil : s = [] := List.eq_nil_of_length_eq_zero (Nat.le_zero.mp hlen)
    subst hnil
    simp [stripTokens] at hmem
  | succ n ih =>
    intro s hlen hmem
    cases s with
    | nil => simp [stripTokens] at hmem
    | cons x rest =>
      rw [stripTokens] at hmem
      by_cases h1 : long.isPrefixOf (x :: rest) = true
      · rw [if_pos h1] at hmem
        have hd : ((x :: rest).drop long.length).length ≤ n := by
          simp only [List.length_drop, List.length_cons] at *
          omega
        exact (List.drop_sublist _ _).subset (ih _ hd hmem)
      · rw [if_neg h1] at hmem
        by_cases h2 : short.isPrefixOf (x :: rest) = true
        · rw [if_pos h2] at hmem
          have hd : ((x :: rest).drop short.length).length ≤ n := by
            simp only [List.length_drop, List.length_cons] at *
            omega
          exact (List.drop_sublist _ _).subset (ih _ hd hmem)
        · rw [if_neg h2] at hmem
          rcases List.mem_cons.mp hmem with h | h
          · exact h ▸ List.mem_cons_self x rest
          · have : rest.length ≤ n := by
              simp only [List.length_cons] at hlen
              omega
            exact List.mem_cons_of_mem x (ih rest this h)

theorem mem_stripTokens (long short : List Char) (hl : 0 < long.length)
    (hs : 0 < short.length) (c : Char) (s : List Char)
    (h : c ∈ stripTokens long short hl hs s) : c ∈ s :=
  mem_stripTokens_aux long short hl hs c s.length s (Nat.le_refl _) h

theorem dropWhile_append_cons_of_neg (p : Char → Bool) (xs : List Char)
    (a : Char) (t : List Char) (ha : p a = false) :
    (xs ++ a :: t).dropWhile p = xs.dropWhile p ++ a :: t := by
  induction xs with
  | nil => simp [List.dropWhile_cons, ha]
  | cons x xs ih =>
    by_cases hx : p x = true
    · simp [List.dropWhile_cons, hx, ih]
    · have hx' : p x = false := by simpa using hx
      simp [List.dropWhile_cons, hx']

theorem firstIdxOf_append_cons (c : Char) (u t : List Char) (hu : c ∉ u) :
    firstIdxOf c (u ++ c :: t) = some u.length := by
  induction u with
  | nil => simp [firstIdxOf]
  | cons x xs ih =>
    have hx : x ≠ c := fun h => hu (by simp [h])
    have hxs : c ∉ xs := fun h => hu (List.mem_cons_of_mem _ h)
    simp [firstIdxOf, hx, ih hxs]

theorem lastIdxOf_eq_none (c : Char) (v : List Char) (hv : c ∉ v) :
    lastIdxOf c v = none := by
  induction v with
  | nil => rfl
  | cons x xs ih =>
    have hx : x ≠ c := fun h => hv (by simp [h])
    have hxs : c ∉ xs := fun h => hv (List.mem_cons_of_mem _ h)
    simp [lastIdxOf, ih hxs, hx]

theorem lastIdxOf_append (c : Char) (w v : List Char) :
    lastIdxOf c (w ++ v)
      = match lastIdxOf c v with
        | some k => some (w.length + k)
        | none => lastIdxOf c w := by
  induction w with
  | nil => cases h : lastIdxOf c v <;> simp [h, lastIdxOf]
  | cons x xs ih =>
    simp only [List.cons_append, lastIdxOf, List.append_eq, ih]
    cases h : lastIdxOf c v with
    | some k =>
      simp only [List.length_cons]
      congr 1
      omega
    | none => rfl

theorem lastIdxOf_concat_self (c : Char) (l : List Char) :
    lastIdxOf c (l ++ [c]) = some l.length := by
  rw [lastIdxOf_append]
  simp [lastIdxOf]

/-- The bracket slice recovers the array literal exactly when the literal
is bracket-delimited, nothing before it contains an open bracket and
nothing after it contains a close bracket. -/
theorem sliceBrackets_exact (u A v : List Char)
    (hu : '[' ∉ u) (hv : ']' ∉ v)
    (h1 : ∃ mid, A = '[' :: mid) (h2 : ∃ q, A = q ++ [']']) :
    sliceBrackets (u ++ A ++ v) = A := by
  obtain ⟨mid, hmid⟩ := h1
  obtain ⟨q, hq⟩ := h2
  have hqne : q ≠ [] := by
    rintro rfl
    rw [hmid] at hq
    injection hq with hhead _
    exact absurd hhead (by decide)
  have hfirst : firstIdxOf '[' (u ++ A ++ v) = some u.length := by
    rw [hmid]
    have e : u ++ '[' :: mid ++ v = u ++ '[' :: (mid ++ v) := by simp
    rw [e, firstIdxOf_append_cons '[' u (mid ++ v) hu]
  have hlast : lastIdxOf ']' (u ++ A ++ v) = some (u.length + q.length) := by
    rw [hq]
    have e : u ++ (q ++ [']']) ++ v = ((u ++ q) ++ [']']) ++ v := by simp
    rw [e, lastIdxOf_append, lastIdxOf_eq_none ']' v hv, lastIdxOf_concat_self]
    simp
  have hAlen : A.length = q.length + 1 := by rw [hq]; simp
  have hqpos : 0 < q.length := List.length_pos.mpr hqne
  have hdrop : (u ++ A ++ v).drop u.length = A ++ v := by
    have e : u ++ A ++ v = u ++ (A ++ v) := by simp
    rw [e, List.drop_left]
  have e2 : u.length + q.length - u.length + 1 = A.length := by omega
  simp only [sliceBrackets, hfirst, hlast, if_pos (show u.length < u.length + q.length by omega)]
  rw [hdrop, e2, List.take_left]

/-- Trimming a text of the shape `P ++ A ++ W`, where `A` starts with an
open bracket and ends with a close bracket (neither is whitespace), only
shortens `P` from the left and `W` from the right. -/
theorem trimChars_decomp (P A W : List Char)
    (h1 : ∃ mid, A = '[' :: mid) (h2 : ∃ q, A = q ++ [']']) :
    ∃ u v, trimChars (P ++ A ++ W) = u ++ A ++ v
      ∧ (∀ c ∈ u, c ∈ P) ∧ (∀ c ∈ v, c ∈ W) := by
  obtain ⟨mid, hmid⟩ := h1
  obtain ⟨q, hq⟩ := h2
  unfold trimChars
  have hleft : (P ++ A ++ W).dropWhile jsWhitespaceChar
      = P.dropWhile jsWhitespaceChar ++ A ++ W := by
    rw [hmid]
    have e : P ++ '[' :: mid ++ W = P ++ '[' :: (mid ++ W) := by simp
    rw [e, dropWhile_append_cons_of_neg _ _ _ _ (by decide)]
    simp
  rw [hleft]
  set u0 := P.dropWhile jsWhitespaceChar with hu0
  have hrev : (u0 ++ A ++ W).reverse
      = W.reverse ++ ']' :: (q.reverse ++ u0.reverse) := by
    rw [hq]
    simp [List.reverse_append]
  rw [hrev, dropWhile_append_cons_of_neg _ _ _ _ (by decide)]
  refine ⟨u0, (W.reverse.dropWhile jsWhitespaceChar).reverse, ?_, ?_, ?_⟩
  · rw [hq]
    simp [List.reverse_append]
  · intro c hc
    exact (List.dropWhile_sublist _).subset hc
  · intro c hc
    have h1 := (List.dropWhile_sublist jsWhitespaceChar).subset
      (List.mem_reverse.mp hc)
    exact List.mem_reverse.mp h1

theorem stripJson_hl2 : ∃ lt, fenceJsonNl = '`' :: lt := ⟨['`', '`', 'j', 's', 'o', 'n', '\n'], rfl⟩

theorem stripJson_hs2 : ∃ st, fenceJson = '`' :: st := ⟨['`', '`', 'j', 's', 'o', 'n'], rfl⟩

theorem stripPlain_hl2 : ∃ lt, fencePlainNl = '`' :: lt := ⟨['`', '`', '\n'], rfl⟩

theorem stripPlain_hs2 : ∃ st, fencePlain = '`' :: st := ⟨['`', '`'], rfl⟩

/-! Specialisations of the scan lemmas to the two concrete replaces. -/

theorem stripJsonFences_nil : stripJsonFences [] = [] := by
  unfold stripJsonFences; exact stripTokens_nil _ _ _ _

theorem stripPlainFences_nil : stripPlainFences [] = [] := by
  unfold stripPlainFences; exact stripTokens_nil _ _ _ _

theorem stripJsonFences_cons_no_match {c : Char} {rest : List Char}
    (h1 : fenceJsonNl.isPrefixOf (c :: rest) = false)
    (h2 : fenceJson.isPrefixOf (c :: rest) = false) :
    stripJsonFences (c :: rest) = c :: stripJsonFences rest := by
  unfold stripJsonFences; exact stripTokens_cons_no_match _ _ _ _ h1 h2

theorem stripPlainFences_cons_no_match {c : Char} {rest : List Char}
    (h1 : fencePlainNl.isPrefixOf (c :: rest) = false)
    (h2 : fencePlain.isPrefixOf (c :: rest) = false) :
    stripPlainFences (c :: rest) = c :: stripPlainFences rest := by
  unfold stripPlainFences; exact stripTokens_cons_no_match _ _ _ _ h1 h2

theorem stripPlainFences_cancel_short (ys : List Char)
    (h1 : fencePlainNl.isPrefixOf (fencePlain ++ ys) = false) :
    stripPlainFences (fencePlain ++ ys) = stripPlainFences ys := by
  unfold stripPlainFences; exact stripTokens_cancel_short _ _ _ _ ys h1

theorem stripJsonFences_no_backtick (xs : List Char) (hxs : '`' ∉ xs)
    (ys : List Char) :
    stripJsonFences (xs ++ ys) = xs ++ stripJsonFences ys := by
  unfold stripJsonFences
  exact stripTokens_append_no_backtick _ _ _ _ stripJson_hl2 stripJson_hs2
    xs hxs ys

theorem stripPlainFences_no_backtick (xs : List Char) (hxs : '`' ∉ xs)
    (ys : List Char) :
    stripPlainFences (xs ++ ys) = xs ++ stripPlainFences ys := by
  unfold stripPlainFences
  exact stripTokens_append_no_backtick _ _ _ _ stripPlain_hl2 stripPlain_hs2
    xs hxs ys

theorem stripJsonFences_literal (A : List Char)
    (hA3 : hasTripleBacktick A = false)
    (hAlast : ∀ c ∈ A.getLast?, c ≠ '`') (ys : List Char) :
    stripJsonFences (A ++ ys) = A ++ stripJsonFences ys := by
  unfold stripJsonFences
  exact stripTokens_append_no_triple _ _ _ _
    ⟨['j', 's', 'o', 'n', '\n'], rfl⟩ ⟨['j', 's', 'o', 'n'], rfl⟩
    A hA3 hAlast ys

theorem stripPlainFences_literal (A : List Char)
    (hA3 : hasTripleBacktick A = false)
    (hAlast : ∀ c ∈ A.getLast?, c ≠ '`') (ys : List Char) :
    stripPlainFences (A ++ ys) = A ++ stripPlainFences ys := by
  unfold stripPlainFences
  exact stripTokens_append_no_triple _ _ _ _
    ⟨['\n'], rfl⟩ ⟨[], rfl⟩ A hA3 hAlast ys

theorem stripJsonFences_append_open (xs ys : List Char) :
    ∃ u, stripJsonFences (xs ++ '[' :: ys) = u ++ stripJsonFences ('[' :: ys)
      ∧ ∀ c ∈ u, c ∈ xs := by
  unfold stripJsonFences
  exact stripTokens_append_open _ _ _ _ (by decide) (by decide) xs ys

theorem stripPlainFences_append_open (xs ys : List Char) :
    ∃ u, stripPlainFences (xs ++ '[' :: ys) = u ++ stripPlainFences ('[' :: ys)
      ∧ ∀ c ∈ u, c ∈ xs := by
  unfold stripPlainFences
  exact stripTokens_append_open _ _ _ _ (by decide) (by decide) xs ys

theorem mem_stripJsonFences (c : Char) (s : List Char)
    (h : c ∈ stripJsonFences s) : c ∈ s := by
  unfold stripJsonFences at h; exact mem_stripTokens _ _ _ _ c s h

theorem mem_stripPlainFences (c : Char) (s : List Char)
    (h : c ∈ stripPlainFences s) : c ∈ s := by
  unfold stripPlainFences at h; exact mem_stripTokens _ _ _ _ c s h

/-- After both fence-removal passes, a fenced model answer
`P ++ "```json\n" ++ A ++ "\n```" ++ Po` becomes `U ++ A ++ W`: the array
literal `A` (bracket-delimited, free of triple-backtick runs) passes
through untouched, whatever backticks `P` and `Po` contain, and `U`/`W`
hold only characters drawn from `P`/the fences/a newline/`Po`. -/
theorem strip_fenced (P A Po : List Char)
    (hA3 : hasTripleBacktick A = false)
    (hAhead : ∃ mid, A = '[' :: mid)
    (hAlast : ∃ q, A = q ++ [']']) :
    ∃ U W, stripPlainFences (stripJsonFences
        (P ++ fenceJsonNl ++ A ++ ('\n' :: fencePlain) ++ Po))
      = U ++ A ++ W
      ∧ (∀ c ∈ U, c ∈ P ∨ c ∈ fenceJsonNl)
      ∧ (∀ c ∈ W, c = '\n' ∨ c ∈ fencePlain ∨ c ∈ Po) := by
  obtain ⟨mid, hmid⟩ := hAhead
  have hAlast' : ∀ c ∈ A.getLast?, c ≠ '`' := by
    obtain ⟨q, hq⟩ := hAlast
    rw [hq, List.getLast?_concat]
    intro c hc
    simp only [Option.mem_def, Option.some.injEq] at hc
    subst hc
    decide
  obtain ⟨u₁, hu₁, hu₁mem⟩ := stripJsonFences_append_open (P ++ fenceJsonNl)
    (mid ++ (('\n' :: fencePlain) ++ Po))
  have e1 : P ++ fenceJsonNl ++ A ++ ('\n' :: fencePlain) ++ Po
      = (P ++ fenceJsonNl) ++ ('[' :: (mid ++ (('\n' :: fencePlain) ++ Po))) := by
    rw [hmid]; simp
  have e2 : ('[' : Char) :: (mid ++ (('\n' :: fencePlain) ++ Po))
      = A ++ (('\n' :: fencePlain) ++ Po) := by
    rw [hmid]; rfl
  have hnl1 : stripJsonFences (('\n' :: fencePlain) ++ Po)
      = '\n' :: stripJsonFences (fencePlain ++ Po) := by
    rw [show ('\n' :: fencePlain) ++ Po = ['\n'] ++ (fencePlain ++ Po) by simp]
    rw [stripJsonFences_no_backtick ['\n'] (by decide)]
    rfl
  have pass1 : stripJsonFences (P ++ fenceJsonNl ++ A ++ ('\n' :: fencePlain) ++ Po)
      = u₁ ++ (A ++ ('\n' :: stripJsonFences (fencePlain ++ Po))) := by
    rw [e1, hu₁, e2, stripJsonFences_literal A hA3 hAlast', hnl1]
  obtain ⟨u₂, hu₂, hu₂mem⟩ := stripPlainFences_append_open u₁
    (mid ++ ('\n' :: stripJsonFences (fencePlain ++ Po)))
  have e3 : u₁ ++ (A ++ ('\n' :: stripJsonFences (fencePlain ++ Po)))
      = u₁ ++ ('[' :: (mid ++ ('\n' :: stripJsonFences (fencePlain ++ Po)))) := by
    rw [hmid]; rfl
  have e4 : ('[' : Char) :: (mid ++ ('\n' :: stripJsonFences (fencePlain ++ Po)))
      = A ++ ('\n' :: stripJsonFences (fencePlain ++ Po)) := by
    rw [hmid]; rfl
  have hnl2 : stripPlainFences ('\n' :: stripJsonFences (fencePlain ++ Po))
      = '\n' :: stripPlainFences (stripJsonFences (fencePlain ++ Po)) := by
    rw [show ('\n' :: stripJsonFences (fencePlain ++ Po))
        = ['\n'] ++ stripJsonFences (fencePlain ++ Po) from rfl]
    rw [stripPlainFences_no_backtick ['\n'] (by decide)]
    rfl
  have pass2 : stripPlainFences
        (u₁ ++ (A ++ ('\n' :: stripJsonFences (fencePlain ++ Po))))
      = u₂ ++ (A ++ ('\n' :: stripPlainFences (stripJsonFences (fencePlain ++ Po)))) := by
    rw [e3, hu₂, e4, stripPlainFences_literal A hA3 hAlast', hnl2]
  refine ⟨u₂, '\n' :: stripPlainFences (stripJsonFences (fencePlain ++ Po)),
    ?_, ?_, ?_⟩
  · rw [pass1, pass2]
    simp [List.append_assoc]
  · intro c hc
    exact List.mem_append.mp (hu₁mem c (hu₂mem c hc))
  · intro c hc
    rcases List.mem_cons.mp hc with h | h
    · exact Or.inl h
    · have h2 := mem_stripJsonFences c _ (mem_stripPlainFences c _ h)
      rcases List.mem_append.mp h2 with h4 | h4
      · exact Or.inr (Or.inl h4)
      · exact Or.inr (Or.inr h4)

/-- Without a fence, the two passes leave the literal intact and only
delete characters inside the preamble and postamble. -/
theorem strip_unfenced (P A Po : List Char)
    (hA3 : hasTripleBacktick A = false)
    (hAhead : ∃ mid, A = '[' :: mid)
    (hAlast : ∃ q, A = q ++ [']']) :
    ∃ U W, stripPlainFences (stripJsonFences (P ++ A ++ Po)) = U ++ A ++ W
      ∧ (∀ c ∈ U, c ∈ P) ∧ (∀ c ∈ W, c ∈ Po) := by
  obtain ⟨mid, hmid⟩ := hAhead
  have hAlast' : ∀ c ∈ A.getLast?, c ≠ '`' := by
    obtain ⟨q, hq⟩ := hAlast
    rw [hq, List.getLast?_concat]
    intro c hc
    simp only [Option.mem_def, Option.some.injEq] at hc
    subst hc
    decide
  obtain ⟨u₁, hu₁, hu₁mem⟩ := stripJsonFences_append_open P (mid ++ Po)
  have e1 : P ++ A ++ Po = P ++ ('[' :: (mid ++ Po)) := by
    rw [hmid]; simp
  have e2 : ('[' : Char) :: (mid ++ Po) = A ++ Po := by
    rw [hmid]; rfl
  have pass1 : stripJsonFences (P ++ A ++ Po)
      = u₁ ++ (A ++ stripJsonFences Po) := by
    rw [e1, hu₁, e2, stripJsonFences_literal A hA3 hAlast']
  obtain ⟨u₂, hu₂, hu₂mem⟩ := stripPlainFences_append_open u₁
    (mid ++ stripJsonFences Po)
  have e3 : u₁ ++ (A ++ stripJsonFences Po)
      = u₁ ++ ('[' :: (mid ++ stripJsonFences Po)) := by
    rw [hmid]; rfl
  have e4 : ('[' : Char) :: (mid ++ stripJsonFences Po)
      = A ++ stripJsonFences Po := by
    rw [hmid]; rfl
  have pass2 : stripPlainFences (u₁ ++ (A ++ stripJsonFences Po))
      = u₂ ++ (A ++ stripPlainFences (stripJsonFences Po)) := by
    rw [e3, hu₂, e4, stripPlainFences_literal A hA3 hAlast']
  refine ⟨u₂, stripPlainFences (stripJsonFences Po), ?_, ?_, ?_⟩
  · rw [pass1, pass2]
    simp [List.append_assoc]
  · intro c hc
    exact hu₁mem c (hu₂mem c hc)
  · intro c hc
    exact mem_stripJsonFences c _ (mem_stripPlainFences c _ hc)

/-- Cleaning recovers the array literal from `P ++ A ++ W` once `W` is
known to be free of close brackets and `P` of backticks and brackets. -/
theorem cleanChars_of_decomp (P A W : List Char)
    (hP : ∀ c ∈ P, c ≠ '[')
    (hW : ∀ c ∈ W, c ≠ ']')
    (h1 : ∃ mid, A = '[' :: mid) (h2 : ∃ q, A = q ++ [']']) :
    sliceBrackets (trimChars (P ++ A ++ W)) = A := by
  obtain ⟨u, v, htrim, hu, hv⟩ := trimChars_decomp P A W h1 h2
  rw [htrim]
  exact sliceBrackets_exact u A v
    (fun h => hP _ (hu _ h) rfl)
    (fun h => hW _ (hv _ h) rfl)
    h1 h2

/-- C7 counterexample: the claim as stated is false on the code.  The
model output `["a```b"]` is a JSON array literal (one string element) with
empty preamble and postamble and no fence, yet the cleaning step returns
`["ab"]`, not the literal: the `/```\n?/g` replace deletes the
triple-backtick run inside the string element. -/
theorem clean_mangles_fence_in_literal_counterexample :
    cleanObligationsText "[\"a```b\"]" = "[\"ab\"]"
    ∧ "[\"ab\"]" ≠ "[\"a```b\"]" := by
  constructor
  · show String.mk (cleanChars ("[\"a```b\"]").data) = "[\"ab\"]"
    have hdata : ("[\"a```b\"]").data
        = ['[', '"', 'a', '`', '`', '`', 'b', '"', ']'] := rfl
    have hSJ : stripJsonFences ['[', '"', 'a', '`', '`', '`', 'b', '"', ']']
        = ['[', '"', 'a', '`', '`', '`', 'b', '"', ']'] := by
      rw [stripJsonFences_cons_no_match (by decide) (by decide)]
      rw [stripJsonFences_cons_no_match (by decide) (by decide)]
      rw [stripJsonFences_cons_no_match (by decide) (by decide)]
      rw [stripJsonFences_cons_no_match (by decide) (by decide)]
      rw [stripJsonFences_cons_no_match (by decide) (by decide)]
      rw [stripJsonFences_cons_no_match (by decide) (by decide)]
      rw [stripJsonFences_cons_no_match (by decide) (by decide)]
      rw [stripJsonFences_cons_no_match (by decide) (by decide)]
      rw [stripJsonFences_cons_no_match (by decide) (by decide)]
      rw [stripJsonFences_nil]
    have hSP : stripPlainFences ['[', '"', 'a', '`', '`', '`', 'b', '"', ']']
        = ['[', '"', 'a', 'b', '"', ']'] := by
      rw [stripPlainFences_cons_no_match (by decide) (by decide)]
      rw [stripPlainFences_cons_no_match (by decide) (by decide)]
      rw [stripPlainFences_cons_no_match (by decide) (by decide)]
      rw [show (['`', '`', '`', 'b', '"', ']'] : List Char)
          = fencePlain ++ ['b', '"', ']'] from rfl]
      rw [stripPlainFences_cancel_short ['b', '"', ']'] (by decide)]
      rw [stripPlainFences_cons_no_match (by decide) (by decide)]
      rw [stripPlainFences_cons_no_match (by decide) (by decide)]
      rw [stripPlainFences_cons_no_match (by decide) (by decide)]
      rw [stripPlainFences_nil]
    unfold cleanChars
    rw [hdata, hSJ, hSP]
    rfl
  · decide

/-- C7 amended: for a model output consisting of an optional Markdown
code-fence wrapper and optional conversational preamble/postamble
(containing no square brackets) around a JSON array literal that contains
no run of three consecutive backticks, the cleaning step — strip fences,
then slice from the first open bracket to the last close bracket — yields
exactly the array literal; and the route passes a parsed non-empty array
through untouched, so no repair or fallback record is substituted.  (A
literal containing a triple-backtick run is mangled by the fence strips,
as the counterexample shows; backticks in the preamble or postamble are
harmless because the strips never delete bracket characters.) -/
theorem clean_extracts_array_literal (pre arr post : String)
    (hpre : ∀ c ∈ pre.data, c ≠ '[' ∧ c ≠ ']')
    (harr3 : hasTripleBacktick arr.data = false)
    (harrFirst : ∃ mid, arr.data = '[' :: mid)
    (harrLast : ∃ q, arr.data = q ++ [']'])
    (hpost : ∀ c ∈ post.data, c ≠ '[' ∧ c ≠ ']') :
    cleanObligationsText (pre ++ "```json\n" ++ arr ++ "\n```" ++ post) = arr
    ∧ cleanObligationsText (pre ++ arr ++ post) = arr
    ∧ ∀ xs, xs ≠ [] →
        generateObligationsCsvRecords (some (JsonValue.arr xs)) = xs := by
  refine ⟨?_, ?_, ?_⟩
  · show String.mk (cleanChars (pre ++ "```json\n" ++ arr ++ "\n```" ++ post).data)
        = arr
    have hdata : (pre ++ "```json\n" ++ arr ++ "\n```" ++ post).data
        = pre.data ++ fenceJsonNl ++ arr.data ++ ('\n' :: fencePlain) ++ post.data := by
      simp only [String.data_append]
      rfl
    rw [hdata]
    obtain ⟨U, W, hUW, hUmem, hWmem⟩ := strip_fenced pre.data arr.data post.data
      harr3 harrFirst harrLast
    have hU : ∀ c ∈ U, c ≠ '[' := by
      intro c hc
      rcases hUmem c hc with h | h
      · exact (hpre c h).1
      · intro heq
        subst heq
        revert h
        decide
    have hW : ∀ c ∈ W, c ≠ ']' := by
      intro c hc
      rcases hWmem c hc with h | h | h
      · subst h; decide
      · intro heq
        subst heq
        revert h
        decide
      · exact (hpost c h).2
    unfold cleanChars
    rw [hUW, cleanChars_of_decomp U arr.data W hU hW harrFirst harrLast]
  · show String.mk (cleanChars (pre ++ arr ++ post).data) = arr
    have hdata : (pre ++ arr ++ post).data = pre.data ++ arr.data ++ post.data := by
      simp only [String.data_append]
    rw [hdata]
    obtain ⟨U, W, hUW, hUmem, hWmem⟩ := strip_unfenced pre.data arr.data post.data
      harr3 harrFirst harrLast
    have hU : ∀ c ∈ U, c ≠ '[' := fun c hc => (hpre c (hUmem c hc)).1
    have hW : ∀ c ∈ W, c ≠ ']' := fun c hc => (hpost c (hWmem c hc)).2
    unfold cleanChars
    rw [hUW, cleanChars_of_decomp U arr.data W hU hW harrFirst harrLast]
  · intro xs hxs
    simp [generateObligationsCsvRecords, List.length_eq_zero, hxs]

/-- Witness for C7's amended theorem at a concrete model answer whose
preamble and postamble each contain a backtick: cleaning recovers exactly
`[1,2,3]` (fenced and unfenced), and a parsed non-empty array passes
through the route. -/
theorem clean_extracts_array_literal_witness :
    cleanObligationsText ("Here`s the extracted obligations JSON:"
        ++ "```json\n" ++ "[1,2,3]" ++ "\n```"
        ++ "\nThat`s all of them.") = "[1,2,3]"
    ∧ cleanObligationsText ("Here`s the extracted obligations JSON:"
        ++ "[1,2,3]" ++ "\nThat`s all of them.") = "[1,2,3]"
    ∧ ∀ xs, xs ≠ [] →
        generateObligationsCsvRecords (some (JsonValue.arr xs)) = xs :=
  clean_extracts_array_literal "Here`s the extracted obligations JSON:"
    "[1,2,3]" "\nThat`s all of them."
    (by decide) (by decide)
    ⟨['1', ',', '2', ',', '3', ']'], rfl⟩
    ⟨['[', '1', ',', '2', ',', '3'], rfl⟩
    (by decide)

end RayfieldLease
